import Mathlib

/-!
Verification of the reddit-opportunity-harvester crawl-scheduling and
opportunity-scoring engine.  The transport layer (`src/server/routes.ts`)
is embedded directly; the scheduler, storage query engine and scoring
engine are not part of the provided sources (only their call sites are),
so they are modelled from the specification, as marked on each definition.
-/

namespace Harvest

/-! ## Character-list utilities

`String.prototype.replaceAll(pattern, replacement)` from the route
`POST /api/generate-comment` (routes.ts:146-169) is embedded over
`List Char`: scan left to right, replace each leftmost non-overlapping
occurrence of `pat`, and continue after the replaced occurrence.  All
patterns used by the route are the fixed non-empty placeholder strings,
so the empty-pattern corner of the JavaScript semantics never arises. -/

def goRA (pat rep : List Char) : List Char → List Char
  | [] => []
  | c :: rest =>
    if pat.isPrefixOf (c :: rest) then
      rep ++ goRA pat rep (rest.drop (pat.length - 1))
    else
      c :: goRA pat rep rest
termination_by s => s.length
decreasing_by
  · simp only [List.length_cons, List.length_drop]
    omega
  · simp

def replaceAll (pat rep s : List Char) : List Char := goRA pat rep s

/-- `true` iff `pat` occurs as a contiguous substring of `s`
(case-sensitive; callers lowercase both sides first for the
case-insensitive keyword match of the scoring engine). -/
def containsSub (pat s : List Char) : Bool :=
  (List.range (s.length + 1)).any fun i => pat.isPrefixOf (s.drop i)

def lcChars (s : String) : List Char := s.toList.map Char.toLower

/-! ## Crawl Scheduler

Modelled from the spec: the scheduler source (`src/server/scheduler.ts`,
imported by routes.ts:7 as `crawlerScheduler` with operations
`startCrawlerJob`, `stopCrawlerJob`, `isCrawlerJobRunning`,
`runCrawlerNow`) is not in the provided sources.  Spec section 4.1 gives a
state machine with states STOPPED, SCHEDULED and RUNNING; `start` arms the
timer only from STOPPED and otherwise is a no-op returning false; `stop`
succeeds only from SCHEDULED and a stop requested mid-run takes effect
when the in-flight run finishes; `runNow` and a timer fire begin a crawl
pass only when no pass is running, and a `runNow` arriving while RUNNING
is rejected rather than starting a second pass; a timer tick while RUNNING
is skipped, not queued.  The `active` counter counts crawl passes
currently executing (incremented when a pass begins, decremented when it
finishes) and is the quantity the single-flight invariant bounds. -/

inductive ResumeTo
  | stopped
  | scheduled
deriving DecidableEq

inductive SchedMode
  | stopped
  | scheduled
  | running (resume : ResumeTo)
deriving DecidableEq

def SchedMode.isRunning : SchedMode → Bool
  | .running _ => true
  | _ => false

inductive SchedEvent
  | start
  | stop
  | runNow
  | timerFire
  | finish
deriving DecidableEq

structure SchedState where
  mode : SchedMode
  active : Nat
deriving DecidableEq

/-- Modelled from the spec: one scheduler transition.  The returned
boolean is the result reported to the caller (`start`/`stop` report
whether the transition happened; for `runNow`/`timerFire` it records
whether a crawl pass was begun; for `finish` whether a pass ended). -/
def schedStep (s : SchedState) (e : SchedEvent) : SchedState × Bool :=
  match e, s.mode with
  | .start, .stopped => ({ s with mode := .scheduled }, true)
  | .start, _ => (s, false)
  | .stop, .scheduled => ({ s with mode := .stopped }, true)
  | .stop, .running .scheduled => ({ s with mode := .running .stopped }, false)
  | .stop, _ => (s, false)
  | .runNow, .stopped => ({ mode := .running .stopped, active := s.active + 1 }, true)
  | .runNow, .scheduled => ({ mode := .running .scheduled, active := s.active + 1 }, true)
  | .runNow, _ => (s, false)
  | .timerFire, .scheduled => ({ mode := .running .scheduled, active := s.active + 1 }, true)
  | .timerFire, _ => (s, false)
  | .finish, .running .stopped => ({ mode := .stopped, active := s.active - 1 }, true)
  | .finish, .running .scheduled => ({ mode := .scheduled, active := s.active - 1 }, true)
  | .finish, _ => (s, false)

def schedInit : SchedState := { mode := .stopped, active := 0 }

def schedRun (s : SchedState) : List SchedEvent → SchedState
  | [] => s
  | e :: es => schedRun (schedStep s e).1 es

/-! ## Filter/Query engine

Modelled from the spec: `storage.getThreads` / `storage.getOpportunities`
(the storage collaborator of routes.ts:30-48 and 233-255) are not in the
provided sources.  Spec section 4.5: conjunctive optional predicates, a
default sort descending by the score/recency field with identifier
tie-break, then `offset`/`limit` pagination.  An absent `limit` means the
whole remaining list (the routes' own total computation at routes.ts:42-48
and 247-255 calls storage with no limit and takes the length as the
total); the default `limit = 10` / `offset = 0` observed by callers lives
in the route (routes.ts:23-24, 226-227, embedded below as `routeLimit` /
`routeOffset`). -/

def paginate {α : Type} (limit offset : Option Nat) (l : List α) : List α :=
  match limit with
  | none => l.drop (offset.getD 0)
  | some k => (l.drop (offset.getD 0)).take k

def optCheck {α : Type} (f : α → Bool) : Option α → Bool
  | none => true
  | some v => f v

/-- A stable insertion of `x` into `l` before the first element `y`
with `le x y`. -/
def insertSorted {α : Type} (le : α → α → Bool) (x : α) : List α → List α
  | [] => [x]
  | y :: ys => if le x y then x :: y :: ys else y :: insertSorted le x ys

def sortByBool {α : Type} (le : α → α → Bool) (l : List α) : List α :=
  l.foldr (insertSorted le) []

/-- Opportunity rows, fields as in the creation schema of
`POST /api/opportunities` (routes.ts:302-309). -/
structure Opportunity where
  id : Nat
  threadId : Nat
  score : Int
  intent : Option String
  matchedProgramIds : List Nat
  serpMatch : Bool
  action : String
deriving DecidableEq

/-- The optional opportunity predicates passed by
`GET /api/opportunities` (routes.ts:233-244). -/
structure OppFilters where
  threadId : Option Nat := none
  intent : Option String := none
  score : Option Int := none
  scoreMin : Option Int := none
  scoreMax : Option Int := none
  serpMatch : Option Bool := none
  action : Option String := none

/-- Modelled from the spec: conjunction of the supplied predicates,
score range bounds inclusive. -/
def oppMatches (f : OppFilters) (o : Opportunity) : Bool :=
  optCheck (fun t => o.threadId == t) f.threadId &&
  optCheck (fun i => o.intent == some i) f.intent &&
  optCheck (fun v => o.score == v) f.score &&
  optCheck (fun m => decide (m ≤ o.score)) f.scoreMin &&
  optCheck (fun m => decide (o.score ≤ m)) f.scoreMax &&
  optCheck (fun b => o.serpMatch == b) f.serpMatch &&
  optCheck (fun a => o.action == a) f.action

/-- Modelled from the spec: default sort, descending by score with
ascending identifier tie-break. -/
def oppLe (a b : Opportunity) : Bool :=
  b.score < a.score || (b.score == a.score && a.id ≤ b.id)

/-- Modelled from the spec: the storage collaborator's opportunity
query (filter, sort, paginate). -/
def getOpportunities (f : OppFilters) (limit offset : Option Nat)
    (db : List Opportunity) : List Opportunity :=
  paginate limit offset (sortByBool oppLe (db.filter (oppMatches f)))

/-- Threads, fields from the spec data model (identifier, source,
title, body, engagement metric, pre-classified intent). -/
structure Thread where
  id : Nat
  subreddit : String
  title : String
  body : String
  upvotes : Nat
  intentType : Option String
deriving DecidableEq

/-- The thread predicates of `GET /api/threads` (routes.ts:30-35) that
spec section 4.5 defines for the thread collection: source, intent and
free-text search over title/body. -/
structure ThreadFilters where
  subreddit : Option String := none
  intentType : Option String := none
  search : Option String := none

/-- Modelled from the spec: conjunctive thread predicates; free-text
search is a case-insensitive substring match over title or body. -/
def threadMatches (f : ThreadFilters) (t : Thread) : Bool :=
  optCheck (fun s => t.subreddit == s) f.subreddit &&
  optCheck (fun i => t.intentType == some i) f.intentType &&
  optCheck (fun q => containsSub (lcChars q) (lcChars t.title) ||
    containsSub (lcChars q) (lcChars t.body)) f.search

/-- Modelled from the spec: default thread sort, descending by the
recency/engagement field with identifier tie-break. -/
def threadLe (a b : Thread) : Bool :=
  b.upvotes < a.upvotes || (b.upvotes == a.upvotes && a.id ≤ b.id)

/-- Modelled from the spec: the storage collaborator's thread query. -/
def getThreads (f : ThreadFilters) (limit offset : Option Nat)
    (db : List Thread) : List Thread :=
  paginate limit offset (sortByBool threadLe (db.filter (threadMatches f)))

/-- routes.ts:23,36 / 226,241: the route destructures
`limit = 10` as default and forwards `parseInt(limit)`; a supplied query
value is a non-empty string, hence truthy, so it is always forwarded. -/
def routeLimit (q : Option Nat) : Option Nat := some (q.getD 10)

/-- routes.ts:24,37 / 227,242: the route destructures `offset = 0` as
default, and `offset ? parseInt(offset) : undefined` forwards `undefined`
for the (falsy) default, leaving the engine's own offset default of 0. -/
def routeOffset (q : Option Nat) : Option Nat := q

/-- The page returned by `GET /api/opportunities` (routes.ts:233-245). -/
def opportunitiesRoutePage (f : OppFilters) (limitQ offsetQ : Option Nat)
    (db : List Opportunity) : List Opportunity :=
  getOpportunities f (routeLimit limitQ) (routeOffset offsetQ) db

/-- The `total` reported by `GET /api/opportunities` (routes.ts:247-255):
the same predicates, no limit or offset, length taken. -/
def opportunitiesRouteTotal (f : OppFilters) (db : List Opportunity) : Nat :=
  (getOpportunities f none none db).length

/-- The page returned by `GET /api/threads` (routes.ts:30-40). -/
def threadsRoutePage (f : ThreadFilters) (limitQ offsetQ : Option Nat)
    (db : List Thread) : List Thread :=
  getThreads f (routeLimit limitQ) (routeOffset offsetQ) db

/-- The `total` reported by `GET /api/threads` (routes.ts:42-48). -/
def threadsRouteTotal (f : ThreadFilters) (db : List Thread) : Nat :=
  (getThreads f none none db).length

/-! ## Opportunity Scoring Engine

Modelled from the spec: `storage.refreshOpportunities()` (called by
`POST /api/refresh-opportunities`, routes.ts:493-501) is not in the
provided sources.  Spec section 4.4: for every persisted thread, collect
the affiliate programs one of whose keywords occurs case-insensitively in
the title or body; set the serp-match flag iff a ranked SerpResult for the
thread exists; score by a weighted combination of match count, an intent
bonus for COMPARISON/REVIEW, a serp bonus, and a normalized engagement
contribution, all weights supplied as configuration; derive the action
(no matches: SKIP; above threshold: COMMENT; otherwise WATCH); and upsert
one opportunity per thread, returning the number written. -/

structure AffiliateProgram where
  id : Nat
  name : String
  link : String
  promoCode : Option String
  keywords : List String
deriving DecidableEq

structure SerpResult where
  id : Nat
  threadId : Nat
  query : String
  position : Option Nat
  isRanked : Bool
deriving DecidableEq

/-- Modelled from the spec: the tunable scoring weights and thresholds
(spec sections 4.4 and 9 require them to be configuration, not baked-in
literals); `engagement` is the normalized engagement-metric
contribution as a function of the upvote count. -/
structure ScoringConfig where
  programWeight : Int
  intentBonus : Int
  serpBonus : Int
  engagement : Nat → Int
  commentThreshold : Int

def keywordHit (t : Thread) (p : AffiliateProgram) : Bool :=
  p.keywords.any fun kw =>
    containsSub (lcChars kw) (lcChars t.title) ||
    containsSub (lcChars kw) (lcChars t.body)

def matchedProgramsOf (programs : List AffiliateProgram) (t : Thread) :
    List Nat :=
  (programs.filter (keywordHit t)).map (·.id)

def serpMatchedOf (serps : List SerpResult) (t : Thread) : Bool :=
  serps.any fun r => r.threadId == t.id && r.isRanked

def highIntent : Option String → Bool
  | some i => i == "COMPARISON" || i == "REVIEW"
  | none => false

def scoreOf (cfg : ScoringConfig) (t : Thread) (matched : List Nat)
    (serp : Bool) : Int :=
  cfg.programWeight * matched.length +
  (if highIntent t.intentType then cfg.intentBonus else 0) +
  (if serp then cfg.serpBonus else 0) +
  cfg.engagement t.upvotes

def actionOf (cfg : ScoringConfig) (matched : List Nat) (score : Int) :
    String :=
  if matched.isEmpty then "SKIP"
  else if cfg.commentThreshold ≤ score then "COMMENT"
  else "WATCH"

def computeOpportunity (cfg : ScoringConfig)
    (programs : List AffiliateProgram) (serps : List SerpResult)
    (t : Thread) : Opportunity :=
  let matched := matchedProgramsOf programs t
  let serp := serpMatchedOf serps t
  let score := scoreOf cfg t matched serp
  { id := t.id
    threadId := t.id
    score := score
    intent := t.intentType
    matchedProgramIds := matched
    serpMatch := serp
    action := actionOf cfg matched score }

/-- The stored state the scoring engine reads and writes. -/
structure DB where
  threads : List Thread
  programs : List AffiliateProgram
  serpResults : List SerpResult
  opportunities : List Opportunity
deriving DecidableEq

/-- Modelled from the spec: `refreshOpportunities` recomputes the whole
opportunity set from the persisted threads, programs and SERP results
(full overwrite keyed by thread) and returns the count written. -/
def refreshOpportunities (cfg : ScoringConfig) (db : DB) : DB × Nat :=
  let opps := db.threads.map (computeOpportunity cfg db.programs db.serpResults)
  ({ db with opportunities := opps }, opps.length)

/-! ## Run-crawler route

`POST /api/run-crawler` (routes.ts:182-214).  The body schema is
`z.object({ subreddits: z.array(z.string()).optional() })`: an absent
field parses to `undefined`, a well-typed array parses as itself, and any
other shape raises a `ZodError`, answered with HTTP 400 "Invalid request
data".  On success, routes.ts:192-194 substitutes the full standard
subreddit list (`getAllSubreddits()`, a constant whose contents live
outside the provided sources and are taken as a parameter here) whenever
the field is absent or the supplied array is empty, and runs the crawler
on the chosen list. -/

/-- The `subreddits` field of the request body as received: absent, a
well-typed string array, or anything else (which fails the zod parse). -/
inductive SubsField
  | strings (l : List String)
  | malformed
deriving DecidableEq

def zodParseRunCrawler : Option SubsField → Except Unit (Option (List String))
  | none => .ok none
  | some (.strings l) => .ok (some l)
  | some .malformed => .error ()

/-- routes.ts:192-194. -/
def subredditListChoice (allSubs : List String)
    (subreddits : Option (List String)) : List String :=
  match subreddits with
  | some l => if l.length > 0 then l else allSubs
  | none => allSubs

inductive RunCrawlerOutcome
  | validationError
  | ran (subs : List String)
deriving DecidableEq

/-- The observable decision of the `POST /api/run-crawler` handler:
either the 400 validation answer from the zod parse, or a crawl over the
chosen subreddit list. -/
def runCrawlerRoute (allSubs : List String) (body : Option SubsField) :
    RunCrawlerOutcome :=
  match zodParseRunCrawler body with
  | .error _ => .validationError
  | .ok subs => .ran (subredditListChoice allSubs subs)

/-! ## SERP-result creation route

`POST /api/serp-results` (routes.ts:413-433).  The body schema requires
`threadId: z.number()`, `query: z.string()`, `position: z.number()` and
`isRanked: z.boolean()` — none optional, none nullable, and no positivity
constraint on `position`.  Each body field is embedded as an `Option`
(absent or present); a missing or extra-shaped field fails the parse and
is answered with HTTP 400, otherwise `storage.createSerpResult` is called
with exactly the parsed fields. -/

structure SerpPostBody where
  threadId : Option Int := none
  query : Option String := none
  position : Option Int := none
  isRanked : Option Bool := none

structure SerpCreateData where
  threadId : Int
  query : String
  position : Int
  isRanked : Bool
deriving DecidableEq

def zodParseSerpPost (b : SerpPostBody) : Except Unit SerpCreateData :=
  match b.threadId, b.query, b.position, b.isRanked with
  | some t, some q, some p, some r => .ok ⟨t, q, p, r⟩
  | _, _, _, _ => .error ()

/-! ## Comment generation

`POST /api/generate-comment` (routes.ts:142-169): starting from the
template text, the handler applies `replaceAll` once per recognized
placeholder, in source order; `{{promo_code}}` is replaced by
`program.promoCode || ''`, i.e. the empty string when the program has no
promo code. -/

/-- The placeholder string `\x7b\x7bw\x7d\x7d` for a word `w`. -/
def placeholder (w : String) : List Char :=
  '{' :: '{' :: (w.toList ++ ['}', '}'])

/-- The substitutions of routes.ts:146-169 as (word, replacement) pairs,
in source order. -/
def commentSubsW (p : AffiliateProgram) : List (String × List Char) :=
  [ ("program", p.name.toList),
    ("link", p.link.toList),
    ("promo_code", (p.promoCode.getD "").toList),
    ("benefit", ("it has specialized templates for blog posts, articles, and social media content").toList),
    ("feature", ("the Boss Mode plan").toList),
    ("advantage", ("write long-form content with AI continuing your thoughts").toList),
    ("reason", ("of its versatility and user-friendly interface").toList),
    ("use_case", ("blog posts and social media content").toList),
    ("use_case_1", ("Blog post outlines").toList),
    ("use_case_2", ("Full blog articles").toList),
    ("use_case_3", ("Social media captions").toList),
    ("limitation", ("the depth of long-form content generation").toList),
    ("drawback", ("requires more editing").toList),
    ("improvement", ("increased by 200%").toList),
    ("advantage_1", ("Specialized templates for your exact content needs").toList),
    ("advantage_2", ("High-quality output requiring minimal editing").toList),
    ("advantage_3", ("Excellent customer support and regular updates").toList),
    ("plan", ("Creator").toList),
    ("price", ("$49").toList),
    ("result", ("have seen a 70% reduction in content creation time").toList),
    ("discount", ("20% off your first month").toList) ]

/-- The generated comment: the chain of `replaceAll` calls of
routes.ts:146-169 applied to the template. -/
def generateComment (p : AffiliateProgram) (template : List Char) :
    List Char :=
  (commentSubsW p).foldl (fun c pr => replaceAll (placeholder pr.1) pr.2 c) template

/-- The words of the placeholders the route recognizes. -/
def recognizedWords : List String :=
  [ "program", "link", "promo_code", "benefit", "feature", "advantage",
    "reason", "use_case", "use_case_1", "use_case_2", "use_case_3",
    "limitation", "drawback", "improvement", "advantage_1", "advantage_2",
    "advantage_3", "plan", "price", "result", "discount" ]

/-! A template analysed as an interleaving of literal text and whole
placeholders; well-formedness (brace-free literal segments and
brace-free placeholder words) is the side condition under which the
chain of replacements is guaranteed to leave no recognized placeholder
behind. -/

inductive TChunk
  | lit (s : List Char)
  | ph (w : String)
deriving DecidableEq

def TChunk.render1 : TChunk → List Char
  | .lit s => s
  | .ph w => placeholder w

def render : List TChunk → List Char
  | [] => []
  | c :: cs => c.render1 ++ render cs

def braceFree (s : List Char) : Prop :=
  ∀ c ∈ s, c ≠ '{' ∧ c ≠ '}'

instance braceFreeDecidable (s : List Char) : Decidable (braceFree s) :=
  inferInstanceAs (Decidable (∀ c ∈ s, c ≠ '{' ∧ c ≠ '}'))

def TChunk.ok : TChunk → Prop
  | .lit s => braceFree s
  | .ph w => braceFree w.toList

instance chunkOkDecidable : DecidablePred TChunk.ok := fun c =>
  match c with
  | .lit s => inferInstanceAs (Decidable (braceFree s))
  | .ph w => inferInstanceAs (Decidable (braceFree w.toList))

def WF (cs : List TChunk) : Prop := ∀ c ∈ cs, c.ok

instance wfDecidable (cs : List TChunk) : Decidable (WF cs) :=
  inferInstanceAs (Decidable (∀ c ∈ cs, c.ok))

/-- The effect of one `replaceAll` step on the chunk analysis: every
placeholder chunk carrying the substituted word becomes literal text. -/
def substChunk (w : String) (r : List Char) : TChunk → TChunk
  | .lit s => .lit s
  | .ph w' => if w' = w then .lit r else .ph w'

def applySubsChunks (subs : List (String × List Char))
    (cs : List TChunk) : List TChunk :=
  subs.foldl (fun acc pr => acc.map (substChunk pr.1 pr.2)) cs

/-- A substitution list is good when every pattern word is brace-free
and non-empty and every replacement is brace-free.  The mock
replacements of routes.ts:152-169 are all brace-free literals; the three
program-dependent replacements are brace-free exactly when the program's
name, link and promo code are. -/
def goodSubs (subs : List (String × List Char)) : Prop :=
  ∀ pr ∈ subs, braceFree pr.1.toList ∧ pr.1.toList ≠ [] ∧ braceFree pr.2

/-- The single-flight coupling of the crawl-pass counter to the mode:
exactly one pass is executing iff the scheduler is RUNNING. -/
def SchedInv (s : SchedState) : Prop :=
  s.active = if s.mode.isRunning then 1 else 0

def exOppA : Opportunity := ⟨1, 1, 90, none, [1], false, "COMMENT"⟩

def exOppB : Opportunity := ⟨2, 2, 50, none, [], false, "SKIP"⟩

def exProgram : AffiliateProgram :=
  ⟨1, "Jasper", "jasper-example-link", none, []⟩

def exChunks : List TChunk :=
  [TChunk.lit ("Try ").toList, TChunk.ph "program",
   TChunk.lit (" today ").toList, TChunk.ph "program",
   TChunk.ph "promo_code", TChunk.ph "nonplaceholder"]

/-! ## Helper lemmas: sorting -/

theorem length_insertSorted {α : Type} (le : α → α → Bool) (x : α)
    (l : List α) : (insertSorted le x l).length = l.length + 1 := by
  induction l with
  | nil => rfl
  | cons y ys ih =>
    rw [insertSorted]
    split
    · simp
    · simp [ih]

theorem length_sortByBool {α : Type} (le : α → α → Bool) (l : List α) :
    (sortByBool le l).length = l.length := by
  induction l with
  | nil => rfl
  | cons x xs ih =>
    show (insertSorted le x (sortByBool le xs)).length = xs.length + 1
    rw [length_insertSorted, ih]

theorem mem_insertSorted {α : Type} (le : α → α → Bool) (x y : α)
    (l : List α) : y ∈ insertSorted le x l ↔ y = x ∨ y ∈ l := by
  induction l with
  | nil => simp [insertSorted]
  | cons z zs ih =>
    rw [insertSorted]
    split
    · simp
    · simp only [List.mem_cons, ih]
      tauto

theorem mem_sortByBool {α : Type} (le : α → α → Bool) (y : α) (l : List α) :
    y ∈ sortByBool le l ↔ y ∈ l := by
  induction l with
  | nil => simp [sortByBool]
  | cons x xs ih =>
    show y ∈ insertSorted le x (sortByBool le xs) ↔ _
    rw [mem_insertSorted]
    simp [ih]

/-! ## Helper lemmas: replaceAll over analysed templates -/

theorem isPrefixOf_self_append (l t : List Char) :
    l.isPrefixOf (l ++ t) = true := by
  induction l with
  | nil => simp [List.isPrefixOf]
  | cons a as ih => simp [List.isPrefixOf, ih]

/-- One scan step of `goRA` at a leftmost match: the occurrence is
replaced and scanning continues after it. -/
theorem goRA_head_match (pat rep y : List Char) (hne : pat ≠ []) :
    goRA pat rep (pat ++ y) = rep ++ goRA pat rep y := by
  match pat, hne with
  | p :: ps, _ =>
    rw [List.cons_append, goRA]
    rw [if_pos (by rw [← List.cons_append]; exact isPrefixOf_self_append _ _)]
    have : (ps ++ y).drop ((p :: ps).length - 1) = y := by
      simp [List.drop_left]
    rw [this]

/-- Scanning past a region in which no occurrence of the pattern
starts leaves the region untouched. -/
theorem goRA_append_of_no_match (pat rep x y : List Char)
    (h : ∀ i, i < x.length → pat.isPrefixOf ((x ++ y).drop i) = false) :
    goRA pat rep (x ++ y) = x ++ goRA pat rep y := by
  induction x with
  | nil => simp
  | cons c x' ih =>
    have h0 : pat.isPrefixOf (c :: (x' ++ y)) = false := by
      have := h 0 (by simp)
      simpa using this
    rw [List.cons_append, goRA, if_neg (by simp [h0])]
    rw [ih (fun i hi => by
      have := h (i + 1) (by simpa using Nat.succ_lt_succ hi)
      simpa using this)]
    simp

/-- No occurrence of a pattern opening with a brace starts inside a
brace-free region. -/
theorem braceFree_no_match (x : List Char) (hx : braceFree x)
    (t y : List Char) :
    ∀ i, i < x.length →
      ('{' :: t).isPrefixOf ((x ++ y).drop i) = false := by
  induction x with
  | nil => simp
  | cons c x' ih =>
    intro i hi
    match i with
    | 0 =>
      have hc : ('{' == c) = false :=
        beq_eq_false_iff_ne.mpr (fun h => (hx c (by simp)).1 h.symm)
      simp [List.isPrefixOf, hc]
    | j + 1 =>
      simp only [List.cons_append, List.drop_succ_cons]
      exact ih (fun d hd => hx d (by simp [hd])) j (by simpa using hi)

/-- No occurrence of a pattern opening with a brace starts inside a
brace-free region or inside the two closing braces that follow it. -/
theorem closeBrace_no_match (x : List Char) (hx : braceFree x)
    (t y : List Char) :
    ∀ j, j ≤ x.length + 1 →
      ('{' :: t).isPrefixOf ((x ++ '}' :: '}' :: y).drop j) = false := by
  induction x with
  | nil =>
    intro j hj
    have hb : ('{' == '}') = false := by decide
    match j with
    | 0 => simp [List.isPrefixOf, hb]
    | 1 => simp [List.isPrefixOf, hb]
    | k + 2 => exact absurd hj (by simp)
  | cons c x' ih =>
    intro j hj
    match j with
    | 0 =>
      have hc : ('{' == c) = false :=
        beq_eq_false_iff_ne.mpr (fun h => (hx c (by simp)).1 h.symm)
      simp [List.isPrefixOf, hc]
    | k + 1 =>
      simp only [List.cons_append, List.drop_succ_cons]
      exact ih (fun d hd => hx d (by simp [hd])) k (by simpa using hj)

/-- A word followed by its closing braces never matches at the start of
a different word followed by closing braces (both words brace-free). -/
theorem word_close_no_match (w w' : List Char) (hw : braceFree w)
    (hw' : braceFree w') (hne : w ≠ w') (y : List Char) :
    (w ++ ['}', '}']).isPrefixOf ((w' ++ ['}', '}']) ++ y) = false := by
  induction w generalizing w' with
  | nil =>
    cases w' with
    | nil => exact absurd rfl hne
    | cons c w'' =>
      have hc : ('}' == c) = false :=
        beq_eq_false_iff_ne.mpr (fun h => (hw' c (by simp)).2 h.symm)
      simp [List.isPrefixOf, hc]
  | cons a w₀ ih =>
    cases w' with
    | nil =>
      have ha : (a == '}') = false :=
        beq_eq_false_iff_ne.mpr (hw a (by simp)).2
      simp [List.isPrefixOf, ha]
    | cons b w₁ =>
      by_cases hab : a = b
      · subst hab
        have h₀ : braceFree w₀ := fun d hd => hw d (by simp [hd])
        have h₁ : braceFree w₁ := fun d hd => hw' d (by simp [hd])
        have hne' : w₀ ≠ w₁ := fun h => hne (by rw [h])
        simpa [List.isPrefixOf] using ih w₁ h₀ h₁ hne'
      · have ha : (a == b) = false := beq_eq_false_iff_ne.mpr hab
        simp [List.isPrefixOf, ha]

/-- No occurrence of the placeholder of `w` starts inside the rendering
of a placeholder of a different word `w'`. -/
theorem ph_no_match (w w' : String) (hw : braceFree w.toList)
    (hw' : braceFree w'.toList) (hne : w' ≠ w) (y : List Char) :
    ∀ i, i < (placeholder w').length →
      (placeholder w).isPrefixOf ((placeholder w' ++ y).drop i) = false := by
  intro i hi
  have hlne : w.toList ≠ w'.toList := fun h => hne (String.ext h).symm
  match i with
  | 0 =>
    have : (placeholder w' ++ y).drop 0 =
        '{' :: '{' :: ((w'.toList ++ ['}', '}']) ++ y) := by
      simp [placeholder]
    rw [this, placeholder]
    simp only [List.isPrefixOf, List.cons_append]
    rw [word_close_no_match w.toList w'.toList hw hw' hlne y]
    simp
  | 1 =>
    have : (placeholder w' ++ y).drop 1 =
        '{' :: ((w'.toList ++ ['}', '}']) ++ y) := by
      simp [placeholder]
    rw [this, placeholder]
    simp only [List.isPrefixOf]
    cases hwl : w'.toList with
    | nil => simp [List.isPrefixOf]
    | cons c w'' =>
      have hc : ('{' == c) = false :=
        beq_eq_false_iff_ne.mpr
          (fun h => (hw' c (by rw [hwl]; exact List.mem_cons_self c w'')).1
            h.symm)
      simp [List.isPrefixOf, hc]
  | j + 2 =>
    have hdrop : (placeholder w' ++ y).drop (j + 2) =
        (w'.toList ++ '}' :: '}' :: y).drop j := by
      simp [placeholder]
    have hlen : (placeholder w').length = w'.toList.length + 4 := by
      rw [placeholder]
      simp only [List.length_cons, List.length_append, List.length_nil]
    rw [hdrop, placeholder]
    exact closeBrace_no_match w'.toList hw' _ y j (by omega)

theorem placeholder_ne_nil (w : String) : placeholder w ≠ [] := by
  simp [placeholder]

/-- One `replaceAll` pass over a well-formed template replaces exactly
the placeholder chunks carrying the substituted word — every occurrence,
not only the first — and leaves everything else intact. -/
theorem goRA_render_subst (w : String) (rep : List Char)
    (hw : braceFree w.toList) (cs : List TChunk) (hwf : WF cs) :
    goRA (placeholder w) rep (render cs) =
      render (cs.map (substChunk w rep)) := by
  induction cs with
  | nil => simp [render, goRA]
  | cons c cs' ih =>
    have hok : c.ok := hwf c (List.mem_cons_self c cs')
    have hwf' : WF cs' := fun d hd => hwf d (List.mem_cons_of_mem c hd)
    cases c with
    | lit s =>
      show goRA (placeholder w) rep (s ++ render cs') =
        s ++ render (cs'.map (substChunk w rep))
      rw [goRA_append_of_no_match _ _ _ _
        (fun i hi => by
          rw [placeholder]
          exact braceFree_no_match s hok _ _ i hi), ih hwf']
    | ph w' =>
      by_cases hww : w' = w
      · subst hww
        have hmap : List.map (substChunk w' rep) (TChunk.ph w' :: cs') =
            TChunk.lit rep :: List.map (substChunk w' rep) cs' := by
          simp [substChunk]
        rw [hmap]
        show goRA (placeholder w') rep (placeholder w' ++ render cs') =
          rep ++ render (List.map (substChunk w' rep) cs')
        rw [goRA_head_match _ _ _ (placeholder_ne_nil w'), ih hwf']
      · have hmap : List.map (substChunk w rep) (TChunk.ph w' :: cs') =
            TChunk.ph w' :: List.map (substChunk w rep) cs' := by
          simp [substChunk, hww]
        rw [hmap]
        show goRA (placeholder w) rep (placeholder w' ++ render cs') =
          placeholder w' ++ render (List.map (substChunk w rep) cs')
        rw [goRA_append_of_no_match _ _ _ _
          (fun i hi => ph_no_match w w' hw hok hww _ i hi), ih hwf']

theorem wf_map_subst (w : String) (rep : List Char) (hrep : braceFree rep)
    (cs : List TChunk) (hwf : WF cs) :
    WF (cs.map (substChunk w rep)) := by
  intro c hc
  rw [List.mem_map] at hc
  obtain ⟨d, hd, rfl⟩ := hc
  have hok := hwf d hd
  cases d with
  | lit s => exact hok
  | ph w' =>
    by_cases hww : w' = w
    · simpa [substChunk, hww, TChunk.ok] using hrep
    · simpa [substChunk, hww, TChunk.ok] using hok

/-- The full substitution chain of `generateComment` over a well-formed
template is chunk-wise substitution. -/
theorem foldl_replaceAll_render (subs : List (String × List Char))
    (hsubs : goodSubs subs) (cs : List TChunk) (hwf : WF cs) :
    subs.foldl (fun c pr => replaceAll (placeholder pr.1) pr.2 c)
        (render cs) =
      render (applySubsChunks subs cs) := by
  induction subs generalizing cs with
  | nil => rfl
  | cons pr subs' ih =>
    obtain ⟨h1, h2, h3⟩ := hsubs pr (List.mem_cons_self pr subs')
    have hsubs' : goodSubs subs' :=
      fun q hq => hsubs q (List.mem_cons_of_mem pr hq)
    show subs'.foldl _ (replaceAll (placeholder pr.1) pr.2 (render cs)) =
      render (applySubsChunks subs' (cs.map (substChunk pr.1 pr.2)))
    rw [replaceAll, goRA_render_subst pr.1 pr.2 h1 cs hwf]
    exact ih hsubs' _ (wf_map_subst pr.1 pr.2 h3 cs hwf)

theorem ph_mem_map_subst {w' u : String} {r : List Char}
    {cs : List TChunk} (h : TChunk.ph w' ∈ cs.map (substChunk u r)) :
    TChunk.ph w' ∈ cs ∧ w' ≠ u := by
  rw [List.mem_map] at h
  obtain ⟨d, hd, he⟩ := h
  cases d with
  | lit s => simp [substChunk] at he
  | ph v =>
    by_cases hvu : v = u
    · simp [substChunk, hvu] at he
    · simp only [substChunk, if_neg hvu] at he
      cases he
      exact ⟨hd, hvu⟩

theorem ph_mem_applySubs {w' : String} (subs : List (String × List Char))
    (cs : List TChunk) (h : TChunk.ph w' ∈ applySubsChunks subs cs) :
    TChunk.ph w' ∈ cs ∧ ∀ pr ∈ subs, w' ≠ pr.1 := by
  induction subs generalizing cs with
  | nil => exact ⟨h, by simp⟩
  | cons pr subs' ih =>
    obtain ⟨hmem, hrest⟩ := ih (cs.map (substChunk pr.1 pr.2)) h
    obtain ⟨hcs, hne⟩ := ph_mem_map_subst hmem
    refine ⟨hcs, fun q hq => ?_⟩
    rcases List.mem_cons.mp hq with rfl | hq'
    · exact hne
    · exact hrest q hq'

theorem wf_applySubs (subs : List (String × List Char))
    (hsubs : goodSubs subs) (cs : List TChunk) (hwf : WF cs) :
    WF (applySubsChunks subs cs) := by
  induction subs generalizing cs with
  | nil => exact hwf
  | cons pr subs' ih =>
    obtain ⟨h1, h2, h3⟩ := hsubs pr (List.mem_cons_self pr subs')
    exact ih (fun q hq => hsubs q (List.mem_cons_of_mem pr hq)) _
      (wf_map_subst pr.1 pr.2 h3 cs hwf)

/-- A well-formed template containing no placeholder chunk for `w` has
no occurrence of the placeholder of `w` in its rendering. -/
theorem no_ph_no_occurrence (w : String) (hw : braceFree w.toList)
    (cs : List TChunk) (hwf : WF cs)
    (hno : ∀ w', TChunk.ph w' ∈ cs → w' ≠ w) :
    ∀ i, (placeholder w).isPrefixOf ((render cs).drop i) = false := by
  induction cs with
  | nil =>
    intro i
    show (placeholder w).isPrefixOf (([] : List Char).drop i) = false
    rw [List.drop_nil, placeholder]
    rfl
  | cons c cs' ih =>
    intro i
    have hok : c.ok := hwf c (List.mem_cons_self c cs')
    have hwf' : WF cs' := fun d hd => hwf d (List.mem_cons_of_mem c hd)
    have hno' : ∀ w', TChunk.ph w' ∈ cs' → w' ≠ w :=
      fun w' hd => hno w' (List.mem_cons_of_mem c hd)
    have hsplit : render (c :: cs') = c.render1 ++ render cs' := rfl
    rw [hsplit]
    by_cases hi : i < c.render1.length
    · cases c with
      | lit s => exact braceFree_no_match s hok _ _ i hi
      | ph w' =>
        exact ph_no_match w w' hw hok
          (hno w' (List.mem_cons_self _ cs')) _ i hi
    · have : i = c.render1.length + (i - c.render1.length) := by omega
      rw [this, List.drop_append]
      exact ih hwf' hno' _

theorem recognizedWords_eq_subs_words (p : AffiliateProgram) :
    (commentSubsW p).map Prod.fst = recognizedWords := rfl

/-! ## Helper lemmas: the scheduler invariant -/

theorem schedStep_inv {s : SchedState} (h : SchedInv s) (e : SchedEvent) :
    SchedInv (schedStep s e).1 := by
  obtain ⟨m, a⟩ := s
  cases e <;> cases m <;>
    first
      | (rename_i r; cases r <;>
          simp_all [SchedInv, schedStep, SchedMode.isRunning])
      | simp_all [SchedInv, schedStep, SchedMode.isRunning]

theorem schedRun_inv {s : SchedState} (h : SchedInv s)
    (evts : List SchedEvent) : SchedInv (schedRun s evts) := by
  induction evts generalizing s with
  | nil => exact h
  | cons e es ih => exact ih (schedStep_inv h e)

/-! ## Claim theorems -/

/-- C1: for every sequence of start, stop, runNow and timer-fire events
from the initial state, at most one crawl execution is active at any
instant, and a runNow arriving while a pass is RUNNING is rejected
without beginning a second pass. -/
theorem single_flight_invariant (evts : List SchedEvent) :
    (schedRun schedInit evts).active ≤ 1 ∧
    ((schedRun schedInit evts).mode.isRunning = true →
      (schedStep (schedRun schedInit evts) SchedEvent.runNow).2 = false ∧
      (schedStep (schedRun schedInit evts) SchedEvent.runNow).1 =
        schedRun schedInit evts) := by
  have hinv : SchedInv (schedRun schedInit evts) :=
    schedRun_inv (by simp [SchedInv, schedInit, SchedMode.isRunning]) evts
  constructor
  · rw [hinv]
    split <;> omega
  · intro hr
    generalize schedRun schedInit evts = s at hr ⊢
    obtain ⟨m, a⟩ := s
    cases m with
    | stopped => simp [SchedMode.isRunning] at hr
    | scheduled => simp [SchedMode.isRunning] at hr
    | running r => exact ⟨rfl, rfl⟩

/-- Witness for C1 at the concrete event sequence `[runNow]`, whose
final state is RUNNING. -/
theorem single_flight_invariant_witness :
    (schedRun schedInit [SchedEvent.runNow]).mode.isRunning = true ∧
    (schedStep (schedRun schedInit [SchedEvent.runNow])
      SchedEvent.runNow).2 = false :=
  ⟨rfl, ((single_flight_invariant [SchedEvent.runNow]).2 rfl).1⟩

/-- C4 counterexample: the claim quantifies over every state, but from
the SCHEDULED state the first of two consecutive `start()` calls already
returns false, not true. -/
theorem start_twice_claim_false :
    ¬ ∀ s : SchedState,
      ((schedStep s SchedEvent.start).2 = true ∧
        (schedStep (schedStep s SchedEvent.start).1 SchedEvent.start).2 =
          false) ∧
      (schedStep { mode := SchedMode.stopped, active := 0 }
        SchedEvent.stop).2 = false := by
  intro h
  have := (h { mode := SchedMode.scheduled, active := 0 }).1.1
  simp [schedStep] at this

/-- C4 (amended): already-in-state conditions are reported as boolean
results of the total transition function, never thrown: `start()` called
twice in a row from the STOPPED state returns true then false, and
`stop()` called while STOPPED returns false. -/
theorem scheduler_already_in_state_booleans (a : Nat) :
    (schedStep { mode := SchedMode.stopped, active := a }
      SchedEvent.start).2 = true ∧
    (schedStep (schedStep { mode := SchedMode.stopped, active := a }
      SchedEvent.start).1 SchedEvent.start).2 = false ∧
    (schedStep { mode := SchedMode.stopped, active := a }
      SchedEvent.stop).2 = false :=
  ⟨rfl, rfl, rfl⟩

/-- C2 counterexample: a run-crawler request whose subreddit list is
empty passes validation and the crawl executes over the standard
subreddit list; it is not answered with a validation error. -/
theorem run_crawler_empty_list_not_rejected :
    runCrawlerRoute ["programming", "javascript"]
        (some (SubsField.strings [])) =
      RunCrawlerOutcome.ran ["programming", "javascript"] ∧
    runCrawlerRoute ["programming", "javascript"]
        (some (SubsField.strings [])) ≠
      RunCrawlerOutcome.validationError :=
  ⟨rfl, by decide⟩

/-- C2 (amended): a run-crawler call with an empty (or absent) source
list is accepted, not rejected: the crawl runs over the full standard
subreddit list; a validation error arises only when the body fails the
schema parse. -/
theorem run_crawler_empty_list_runs_standard (allSubs : List String) :
    runCrawlerRoute allSubs (some (SubsField.strings [])) =
      RunCrawlerOutcome.ran allSubs ∧
    runCrawlerRoute allSubs none = RunCrawlerOutcome.ran allSubs ∧
    runCrawlerRoute allSubs (some SubsField.malformed) =
      RunCrawlerOutcome.validationError :=
  ⟨rfl, rfl, rfl⟩

/-- C3 counterexample: no serp-result creation request with an absent
position passes the schema, and the schema does not force a present
position to be positive (position 0 is accepted), so the claim fails on
both parts. -/
theorem serp_create_nullable_claim_false :
    (¬ ∃ b : SerpPostBody, ∃ d : SerpCreateData,
      zodParseSerpPost b = Except.ok d ∧ b.position = none) ∧
    ¬ (∀ (b : SerpPostBody) (d : SerpCreateData),
      zodParseSerpPost b = Except.ok d → 0 < d.position) := by
  constructor
  · rintro ⟨⟨t, q, p, r⟩, d, hok, hpos⟩
    simp only at hpos
    subst hpos
    cases t <;> cases q <;> cases r <;> simp [zodParseSerpPost] at hok
  · intro h
    have := h ⟨some 1, some "q", some 0, some true⟩ ⟨1, "q", 0, true⟩ rfl
    exact absurd this (by decide)

/-- C3 (amended): the serp-result creation route requires a present
numeric position — every successfully parsed creation request carries
exactly the position supplied in the body, a request lacking the
position fails validation, and no positivity constraint is enforced
(position 0 parses successfully). -/
theorem serp_create_position_required :
    (∀ (b : SerpPostBody) (d : SerpCreateData),
      zodParseSerpPost b = Except.ok d → b.position = some d.position) ∧
    zodParseSerpPost ⟨some 1, some "q", none, some true⟩ =
      Except.error () ∧
    zodParseSerpPost ⟨some 1, some "q", some 0, some true⟩ =
      Except.ok ⟨1, "q", 0, true⟩ := by
  refine ⟨?_, rfl, rfl⟩
  rintro ⟨t, q, p, r⟩ d h
  cases t <;> cases q <;> cases p <;> cases r <;>
    simp [zodParseSerpPost] at h
  subst h
  rfl

/-- Witness for C3 (amended) at a concrete parsed body. -/
theorem serp_create_position_required_witness :
    (SerpPostBody.mk (some 1) (some "q") (some 5) (some false)).position =
      some ((5 : Int)) :=
  serp_create_position_required.1 ⟨some 1, some "q", some 5, some false⟩
    ⟨1, "q", 5, false⟩ rfl

/-- C9: a run-crawler call with the subreddits parameter omitted or
equal to the empty list crawls the full standard subreddit list, and a
non-empty supplied list is used as given. -/
theorem run_crawler_subreddit_fallback (allSubs subs : List String) :
    subredditListChoice allSubs none = allSubs ∧
    subredditListChoice allSubs (some []) = allSubs ∧
    (subs ≠ [] → subredditListChoice allSubs (some subs) = subs) := by
  refine ⟨rfl, rfl, fun h => ?_⟩
  cases subs with
  | nil => exact absurd rfl h
  | cons a l => simp [subredditListChoice]

/-- Witness for C9 at a concrete non-empty supplied list. -/
theorem run_crawler_subreddit_fallback_witness :
    subredditListChoice ["programming", "javascript"] (some ["seo"]) =
      ["seo"] :=
  (run_crawler_subreddit_fallback ["programming", "javascript"]
    ["seo"]).2.2 (by decide)

/-- C8: refreshOpportunities is idempotent — with no intervening change
to threads, programs or SERP results, a second refresh produces exactly
the same opportunity rows (hence the same scores and actions), each call
returns the count of opportunities written, and a refresh changes
nothing but the opportunity set. -/
theorem refresh_opportunities_idempotent (cfg : ScoringConfig) (db : DB) :
    (refreshOpportunities cfg (refreshOpportunities cfg db).1).1.opportunities =
      (refreshOpportunities cfg db).1.opportunities ∧
    (refreshOpportunities cfg db).2 =
      (refreshOpportunities cfg db).1.opportunities.length ∧
    (refreshOpportunities cfg (refreshOpportunities cfg db).1).2 =
      (refreshOpportunities cfg db).2 ∧
    (refreshOpportunities cfg db).1.threads = db.threads ∧
    (refreshOpportunities cfg db).1.programs = db.programs ∧
    (refreshOpportunities cfg db).1.serpResults = db.serpResults := by
  simp [refreshOpportunities]

/-- C6: the total reported alongside a page is the length of the same
query with the same predicates and no limit or offset — equivalently,
the number of stored rows matching the predicate set — for both the
opportunity and the thread listing. -/
theorem total_equals_unpaged_count (f : OppFilters) (db : List Opportunity)
    (tf : ThreadFilters) (tdb : List Thread) :
    opportunitiesRouteTotal f db = (getOpportunities f none none db).length ∧
    opportunitiesRouteTotal f db = (db.filter (oppMatches f)).length ∧
    threadsRouteTotal tf tdb = (getThreads tf none none tdb).length ∧
    threadsRouteTotal tf tdb = (tdb.filter (threadMatches tf)).length := by
  refine ⟨rfl, ?_, rfl, ?_⟩ <;>
    simp [opportunitiesRouteTotal, threadsRouteTotal, getOpportunities,
      getThreads, paginate, length_sortByBool]

/-- C7: filtering opportunities with scoreMin=50 and scoreMax=80 returns
exactly the stored opportunities whose score lies in the closed interval
[50, 80] — both bounds inclusive, nothing outside the interval. -/
theorem score_range_filter_inclusive (db : List Opportunity)
    (o : Opportunity) :
    o ∈ getOpportunities { scoreMin := some 50, scoreMax := some 80 }
        none none db ↔
      o ∈ db ∧ 50 ≤ o.score ∧ o.score ≤ 80 := by
  simp [getOpportunities, paginate, mem_sortByBool, List.mem_filter,
    oppMatches, optCheck, and_assoc]

/-- C5: when limit or offset are not supplied, the listing routes use
defaults limit=10 and offset=0 (the page is the first ten items of the
full sorted filtered result), and in general entry `i` of the returned
page is entry `offset + i` of the full sorted filtered result, for both
threads and opportunities. -/
theorem pagination_defaults_and_window (f : OppFilters)
    (db : List Opportunity) (tf : ThreadFilters) (tdb : List Thread)
    (limitQ offsetQ : Option Nat) :
    opportunitiesRoutePage f none none db =
      (getOpportunities f none none db).take 10 ∧
    threadsRoutePage tf none none tdb =
      (getThreads tf none none tdb).take 10 ∧
    (∀ i, i < limitQ.getD 10 →
      (opportunitiesRoutePage f limitQ offsetQ db)[i]? =
        (getOpportunities f none none db)[offsetQ.getD 0 + i]?) ∧
    (∀ i, i < limitQ.getD 10 →
      (threadsRoutePage tf limitQ offsetQ tdb)[i]? =
        (getThreads tf none none tdb)[offsetQ.getD 0 + i]?) := by
  refine ⟨?_, ?_, ?_, ?_⟩
  · simp [opportunitiesRoutePage, getOpportunities, paginate, routeLimit,
      routeOffset]
  · simp [threadsRoutePage, getThreads, paginate, routeLimit, routeOffset]
  · intro i hi
    simp [opportunitiesRoutePage, getOpportunities, paginate, routeLimit,
      routeOffset, List.getElem?_take, List.getElem?_drop, hi]
  · intro i hi
    simp [threadsRoutePage, getThreads, paginate, routeLimit, routeOffset,
      List.getElem?_take, List.getElem?_drop, hi]

/-- Witness for C5: with limit=1 and offset=1 over a two-row store, the
single returned entry is the second entry of the full sorted result. -/
theorem pagination_defaults_and_window_witness :
    (opportunitiesRoutePage {} (some 1) (some 1) [exOppA, exOppB])[0]? =
      (getOpportunities {} none none [exOppA, exOppB])[1]? :=
  (pagination_defaults_and_window {} [exOppA, exOppB] {} [] (some 1)
    (some 1)).2.2.1 0 (by decide)

/-- C10 counterexample: with a null promo code, removing the
`promo_code` placeholder occurrence from the template
`\x7b\x7bpromo\x7b\x7bpromo_code\x7d\x7d_code\x7d\x7d` splices the
surrounding text into a fresh `promo_code` placeholder, so the generated
comment still contains (indeed equals) a recognized placeholder. -/
theorem generate_comment_leftover :
    "promo_code" ∈ recognizedWords ∧
    generateComment ⟨1, "P", "L", none, []⟩
        ("{{promo{{promo_code}}_code}}").toList =
      placeholder "promo_code" := by
  constructor
  · decide
  · simp [generateComment, commentSubsW, replaceAll, goRA, placeholder]

/-- C10 (amended): the generation replaces every occurrence of each
recognized placeholder at that placeholder's processing step (replace
all, not replace first — chunk-wise substitution over the analysed
template), and the `promo_code` placeholder is replaced with the empty
string when the program has no promo code; provided the template is a
well-formed interleaving of brace-free literal text and brace-free
placeholders and the program's name, link and promo code contain no
brace characters, the generated comment contains no occurrence of any
recognized placeholder.  (The counterexample shows the unconditional
form is false: a replacement can splice surrounding text into a new
occurrence.) -/
theorem generate_comment_amended (p : AffiliateProgram) (cs : List TChunk)
    (hwf : WF cs) (hn : braceFree p.name.toList)
    (hl : braceFree p.link.toList)
    (hc : braceFree ((p.promoCode.getD "").toList)) :
    generateComment p (render cs) =
      render (applySubsChunks (commentSubsW p) cs) ∧
    (p.promoCode = none →
      generateComment p (render [TChunk.ph "promo_code"]) = []) ∧
    (∀ w ∈ recognizedWords, ∀ i,
      (placeholder w).isPrefixOf
        ((generateComment p (render cs)).drop i) = false) := by
  have hgood : goodSubs (commentSubsW p) := by
    intro pr hpr
    simp only [commentSubsW, List.mem_cons, List.not_mem_nil,
      or_false] at hpr
    rcases hpr with rfl | rfl | rfl | rfl | rfl | rfl | rfl | rfl | rfl |
      rfl | rfl | rfl | rfl | rfl | rfl | rfl | rfl | rfl | rfl | rfl | rfl
    · exact ⟨show braceFree ("program" : String).toList by decide,
        show ("program" : String).toList ≠ [] by decide, hn⟩
    · exact ⟨show braceFree ("link" : String).toList by decide,
        show ("link" : String).toList ≠ [] by decide, hl⟩
    · exact ⟨show braceFree ("promo_code" : String).toList by decide,
        show ("promo_code" : String).toList ≠ [] by decide, hc⟩
    all_goals exact ⟨by decide, by decide, by decide⟩
  refine ⟨foldl_replaceAll_render _ hgood _ hwf, ?_, ?_⟩
  · intro hpc
    have hwf1 : WF [TChunk.ph "promo_code"] := by decide
    rw [show generateComment p (render [TChunk.ph "promo_code"]) =
        render (applySubsChunks (commentSubsW p) [TChunk.ph "promo_code"])
      from foldl_replaceAll_render _ hgood _ hwf1]
    simp only [commentSubsW, hpc, applySubsChunks, List.foldl_cons,
      List.foldl_nil, List.map_cons, List.map_nil, substChunk]
    norm_num
    simp [render, TChunk.render1]
  · intro w hw i
    rw [show generateComment p (render cs) =
        render (applySubsChunks (commentSubsW p) cs)
      from foldl_replaceAll_render _ hgood _ hwf]
    have hwbf : braceFree w.toList := by
      simp only [recognizedWords, List.mem_cons, List.not_mem_nil,
        or_false] at hw
      rcases hw with rfl | rfl | rfl | rfl | rfl | rfl | rfl | rfl | rfl |
        rfl | rfl | rfl | rfl | rfl | rfl | rfl | rfl | rfl | rfl | rfl |
        rfl <;> decide
    refine no_ph_no_occurrence w hwbf _
      (wf_applySubs _ hgood _ hwf) ?_ i
    intro w' hmem hww
    subst hww
    obtain ⟨hcs, hall⟩ := ph_mem_applySubs _ _ hmem
    rw [← recognizedWords_eq_subs_words p, List.mem_map] at hw
    obtain ⟨pr, hpr, hfst⟩ := hw
    exact hall pr hpr hfst.symm

/-- Witness for C10 (amended) at a concrete program and a concrete
well-formed template containing repeated placeholders. -/
theorem generate_comment_amended_witness :
    (placeholder "program").isPrefixOf
      ((generateComment exProgram (render exChunks)).drop 0) = false :=
  (generate_comment_amended exProgram exChunks (by decide) (by decide)
    (by decide) (by decide)).2.2 "program" (by decide) 0

end Harvest
